import Mathlib

/-!
Shallow embedding of the mkstrades ledger and valuation engine (src/main.py).

The external Google Sheets store is modelled as a list of sheet titles plus an
append log of data rows keyed by sheet title.  Spreadsheet cells (as returned
with the UNFORMATTED_VALUE render option) are either text or numbers; numbers
are modelled as rationals.  Network handles (the sheets service, Telegram, the
CoinGecko client) are replaced by explicit parameters and explicit message
lists, and raised-and-caught Python exceptions are modelled with Except.
-/

deriving instance DecidableEq for Except

/-- Python str.upper for ASCII text, mapping each character; defined over the
character list so that it evaluates inside the kernel. -/
def String.pyUpper (s : String) : String := ⟨s.data.map Char.toUpper⟩

/-- Python str.lower for ASCII text, mapping each character. -/
def String.pyLower (s : String) : String := ⟨s.data.map Char.toLower⟩

namespace MksTrades


/-- A spreadsheet cell: either text or a numeric value (UNFORMATTED_VALUE). -/
inductive Cell where
  | str (s : String)
  | num (q : ℚ)
deriving DecidableEq

/-- Python str.upper applied to a cell value; a numeric cell has no upper
method, which raises AttributeError, modelled as none. -/
def Cell.upper? : Cell → Option String
  | .str s => some s.pyUpper
  | .num _ => none

/-- Digit-string value, most significant first. -/
def decDigitsVal (cs : List Char) : Nat :=
  cs.foldl (fun n c => 10 * n + (c.toNat - 48)) 0

/-- Numeric parsing of text, standing in for Python float on strings: optional
sign, decimal digits, optional single fractional part; anything else fails
with ValueError, modelled as none. -/
def parseDecimal? (s : String) : Option ℚ :=
  let cs := s.toList
  let signSplit : Bool × List Char :=
    match cs with
    | '-' :: r => (true, r)
    | '+' :: r => (false, r)
    | r => (false, r)
  let neg := signSplit.1
  let rest := signSplit.2
  let ip := rest.takeWhile (fun c => c != '.')
  let tl := rest.dropWhile (fun c => c != '.')
  let fp? : Option (List Char) :=
    match tl with
    | [] => some []
    | _ :: f => if f.all (fun c => c != '.') then some f else none
  match fp? with
  | none => none
  | some fp =>
    if ip.all Char.isDigit && fp.all Char.isDigit && (!ip.isEmpty || !fp.isEmpty) then
      let mag : ℚ := (decDigitsVal ip : ℚ) + (decDigitsVal fp : ℚ) / ((10 : ℚ) ^ fp.length)
      some (if neg then -mag else mag)
    else none

/-- Python float applied to a cell value. -/
def Cell.toNum? : Cell → Option ℚ
  | .num q => some q
  | .str s => parseDecimal? s

/-- A data row of a sheet. -/
abbrev Row := List Cell

/-- The spreadsheet: sheet titles in creation order, and the append log of data
rows keyed by the sheet title they were appended to. -/
structure Store where
  sheets : List String
  log : List (String × Row)
deriving DecidableEq

/-- The spreadsheet before any sheet has been created. -/
def Store.empty : Store := ⟨[], []⟩

/-- sheet_exists: case-insensitive comparison against the sheet titles. -/
def sheet_exists (st : Store) (name : String) : Bool :=
  st.sheets.any (fun t => t.pyLower == name.pyLower)

/-- create_sheet_if_not_exists: case-sensitive membership test on the titles;
a new sheet starts with only its header row, so the data log is unchanged. -/
def create_sheet_if_not_exists (st : Store) (name : String) : Store :=
  if st.sheets.contains name then st else ⟨st.sheets ++ [name], st.log⟩

/-- values().append of one data row to a sheet. -/
def appendRow (st : Store) (name : String) (row : Row) : Store :=
  ⟨st.sheets, st.log ++ [(name, row)]⟩

/-- The data rows of one sheet, in order (the A2:H range read). -/
def tableRows (st : Store) (name : String) : List Row :=
  (st.log.filter (fun e => e.1 == name)).map Prod.snd

/-- Trade side. -/
inductive Side where
  | buy
  | sell
deriving DecidableEq

/-- The order_type string stored for a side. -/
def Side.str : Side → String
  | .buy => "BUY"
  | .sell => "SELL"

/-- A validated trade as assembled by process_add_command. -/
structure Trade where
  timestamp : String
  person : String
  coin : String
  price : ℚ
  quantity : ℚ
  exchange : String
  side : Side
deriving DecidableEq

/-- The 8-cell row written for a trade: timestamp, person, coin, price,
quantity, exchange, notional, order type. -/
def tradeRow (t : Trade) : Row :=
  [.str t.timestamp, .str t.person, .str t.coin, .num t.price, .num t.quantity,
   .str t.exchange, .num (t.price * t.quantity), .str t.side.str]

/-- The sheet-creation and triple-append sequence of a successful /add:
ensure Master, the coin sheet and the person sheet exist, then append the
identical row to Master, the coin sheet and the person sheet, in that order. -/
def recordTrade (st : Store) (t : Trade) : Store :=
  let st1 := create_sheet_if_not_exists st "Master"
  let st2 := create_sheet_if_not_exists st1 t.coin
  let st3 := create_sheet_if_not_exists st2 t.person
  let st4 := appendRow st3 "Master" (tradeRow t)
  let st5 := appendRow st4 t.coin (tradeRow t)
  appendRow st5 t.person (tradeRow t)

/-- The store obtained by recording a sequence of trades on an empty
spreadsheet. -/
def loadTrades (ts : List Trade) : Store :=
  ts.foldl recordTrade Store.empty

/-- A Telegram message sent by the bot, abstracted to its content. -/
inductive TgMsg where
  | newCoinAlert (symbol : String)
deriving DecidableEq

/-- Outcome of process_add_command, abstracting the returned reply string. -/
inductive AddResult where
  | invalidFormat
  | invalidOrderType
  | invalidPriceQty
  | recorded (t : Trade)
  | excCaught (msg : String)
deriving DecidableEq

/-- process_add_command (the later of the two definitions in the source, the
one in effect at call time), acting on the already-split command words.  The
second component lists Telegram messages sent while handling the command; this
definition contains no send_telegram_message call, so it is always empty.
Float parsing failures fall through to the surrounding except handler. -/
def process_add_command (st : Store) (now : String) (parts : List String) :
    Store × List TgMsg × AddResult :=
  if parts.length ≠ 7 then (st, [], .invalidFormat)
  else
    let person := (parts.getD 1 "").pyLower
    let coin := (parts.getD 2 "").pyUpper
    match parseDecimal? (parts.getD 3 ""), parseDecimal? (parts.getD 4 "") with
    | some price, some quantity =>
      let exchange := parts.getD 5 ""
      let order_type := (parts.getD 6 "").pyUpper
      if order_type ≠ "BUY" ∧ order_type ≠ "SELL" then (st, [], .invalidOrderType)
      else if price ≤ 0 ∨ quantity ≤ 0 then (st, [], .invalidPriceQty)
      else
        let t : Trade :=
          ⟨now, person, coin, price, quantity, exchange,
            if order_type = "BUY" then .buy else .sell⟩
        (recordTrade st t, [], .recorded t)
    | _, _ => (st, [], .excCaught "ValueError")

/-- One row of the holdings accumulation loop.  With a person scope the loop
condition also compares the coin cell; row cell 7 (and, in person scope, cell
2) is uppercased outside the inner try, so a non-text cell there raises
AttributeError, while a quantity cell that does not parse is caught by the
inner try and the row is skipped. -/
def holdingsStep (filterCoin : Option String) (acc : ℚ) (r : Row) :
    Except String ℚ :=
  if r.length < 8 then .ok acc
  else
    let coinOk : Except String Bool :=
      match filterCoin with
      | none => .ok true
      | some c =>
        match (r[2]?).bind Cell.upper? with
        | none => .error "AttributeError"
        | some s => .ok (s == c)
    match coinOk with
    | .error e => .error e
    | .ok false => .ok acc
    | .ok true =>
      match (r[7]?).bind Cell.upper? with
      | none => .error "AttributeError"
      | some order_type =>
        match (r[4]?).bind Cell.toNum? with
        | none => .ok acc
        | some q => .ok (if order_type == "BUY" then acc + q else acc - q)

/-- The holdings accumulation loop over the rows of the resolved sheet. -/
def holdingsScan (filterCoin : Option String) : ℚ → List Row → Except String ℚ
  | acc, [] => .ok acc
  | acc, r :: rs =>
    match holdingsStep filterCoin acc r with
    | .error e => .error e
    | .ok acc2 => holdingsScan filterCoin acc2 rs

/-- Membership test of the BUY filter comprehension in get_average_buy_price,
with the short-circuit order of the source: length, then (person scope only)
the coin cell, then the order type cell.  Uppercasing a non-text cell raises
AttributeError. -/
def rowIsBuy (coinScope : Option String) (r : Row) : Except String Bool :=
  if r.length < 8 then .ok false
  else
    match coinScope with
    | some c =>
      match (r[2]?).bind Cell.upper? with
      | none => .error "AttributeError"
      | some s =>
        if s == c then
          match (r[7]?).bind Cell.upper? with
          | none => .error "AttributeError"
          | some t => .ok (t == "BUY")
        else .ok false
    | none =>
      match (r[7]?).bind Cell.upper? with
      | none => .error "AttributeError"
      | some t => .ok (t == "BUY")

/-- The filtered_rows comprehension of get_average_buy_price. -/
def filterBuys (coinScope : Option String) : List Row → Except String (List Row)
  | [] => .ok []
  | r :: rs =>
    match rowIsBuy coinScope r with
    | .error e => .error e
    | .ok b =>
      match filterBuys coinScope rs with
      | .error e => .error e
      | .ok rest => .ok (if b then r :: rest else rest)

/-- The cost and quantity accumulation loop over the filtered BUY rows; a
notional or quantity cell that does not parse raises ValueError inside the
inner try, skipping the row before anything is added. -/
def sumBuys : ℚ → ℚ → List Row → ℚ × ℚ
  | total_cost, total_quantity, [] => (total_cost, total_quantity)
  | total_cost, total_quantity, r :: rs =>
    match (r[6]?).bind Cell.toNum?, (r[4]?).bind Cell.toNum? with
    | some t, some q => sumBuys (total_cost + t) (total_quantity + q) rs
    | _, _ => sumBuys total_cost total_quantity rs

/-- Reply text of the no-buys outcome. -/
def noBuysMsg : String := "No BUY transactions found"

/-- The scan part of get_average_buy_price over the rows of the resolved
sheet: filter the BUY rows, total cost and quantity, and divide. -/
def avgScan (coinScope : Option String) (rows : List Row) :
    Except String (Option ℚ × Option String) :=
  match filterBuys coinScope rows with
  | .error e => .error e
  | .ok frows =>
    let s := sumBuys 0 0 frows
    if s.2 = 0 then .ok (none, some noBuysMsg)
    else .ok (some (s.1 / s.2), none)

/-- get_average_buy_price: resolve the scope to the person sheet when a person
is given, otherwise the coin sheet; scan it; any exception raised inside is
caught and returned as a calculation error value. -/
def get_average_buy_price (st : Store) (coin : String) (person : Option String) :
    Option ℚ × Option String :=
  match person with
  | some p =>
    if sheet_exists st p then
      match avgScan (some coin) (tableRows st p) with
      | .ok res => res
      | .error e => (none, some ("Calculation Error: " ++ e))
    else (none, some ("Person not found: " ++ p))
  | none =>
    if sheet_exists st coin then
      match avgScan none (tableRows st coin) with
      | .ok res => res
      | .error e => (none, some ("Calculation Error: " ++ e))
    else (none, some ("Coin not found: " ++ coin))

/-- Outcome of the holdings commands, abstracting the reply string to its
data content: the sheet-missing reply, the caught-exception reply, or the
computed total quantity with the optional USD valuation and the average-price
error carried into the reply. -/
inductive HoldingsResult where
  | notFound (msg : String)
  | calcError (msg : String)
  | ok (total_quantity : ℚ) (usd_value : Option ℚ) (avg_error : Option String)
deriving DecidableEq

/-- Total quantity reported by a holdings outcome, when one was computed. -/
def HoldingsResult.qty? : HoldingsResult → Option ℚ
  | .ok q _ _ => some q
  | _ => none

/-- USD valuation reported by a holdings outcome, when one was computed. -/
def HoldingsResult.usd? : HoldingsResult → Option ℚ
  | .ok _ u _ => u
  | _ => none

/-- calculate_total_holdings_for_coin: scan the coin sheet with no client-side
coin filter, then value the total at the average buy price; a falsy average
price (absent or zero) omits the valuation. -/
def calculate_total_holdings_for_coin (st : Store) (coin : String) :
    HoldingsResult :=
  if sheet_exists st coin then
    match holdingsScan none 0 (tableRows st coin) with
    | .error e => .calcError e
    | .ok total_quantity =>
      let avg := get_average_buy_price st coin none
      let usd_value : Option ℚ :=
        match avg.1 with
        | some a => if a = 0 then none else some (total_quantity * a)
        | none => none
      .ok total_quantity usd_value avg.2
  else .notFound ("Coin not found: " ++ coin)

/-- calculate_total_holdings_for_person_and_coin: scan the person sheet with a
client-side coin filter, then value the total at the person-scoped average buy
price; a falsy average price (absent or zero) omits the valuation. -/
def calculate_total_holdings_for_person_and_coin (st : Store) (person coin : String) :
    HoldingsResult :=
  if sheet_exists st person then
    match holdingsScan (some coin) 0 (tableRows st person) with
    | .error e => .calcError e
    | .ok total_quantity =>
      let avg := get_average_buy_price st coin (some person)
      let usd_value : Option ℚ :=
        match avg.1 with
        | some a => if a = 0 then none else some (total_quantity * a)
        | none => none
      .ok total_quantity usd_value avg.2
  else .notFound ("Person not found: " ++ person)

/-- A Python dict of symbol mappings, viewed through lookup (mappings.get). -/
def Mappings := String → Option String

/-- One step of building the symbol dict: a row with at least two cells maps
its first cell uppercased to its second cell lowercased, overwriting any
earlier entry for that key; shorter rows are skipped. -/
def mapStep (d : Mappings) (row : List String) : Mappings :=
  match row with
  | k :: v :: _ => fun s => if s = k.pyUpper then some v.pyLower else d s
  | _ => d

/-- get_coin_mappings: the dict comprehension over the CoinMappings data rows,
keying row cell 0 uppercased to row cell 1 lowercased; a later row with the
same key overwrites the earlier entry, as dict construction does. -/
def get_coin_mappings (values : List (List String)) : Mappings :=
  values.foldl mapStep (fun _ => none)

/-- mappings.get(symbol). -/
def resolve (m : Mappings) (symbol : String) : Option String := m symbol

/-- check_coin_mapping: tests truthiness of the looked-up identifier (missing
or empty is falsy) and messages the admin about an unmapped symbol. -/
def check_coin_mapping (m : Mappings) (coin_symbol : String) : Bool × List TgMsg :=
  match m coin_symbol with
  | none => (false, [.newCoinAlert coin_symbol])
  | some cgid =>
    if cgid = "" then (false, [.newCoinAlert coin_symbol]) else (true, [])

/-- Outcome of the earlier, shadowed definition of process_add_command. -/
inductive AddResultV1 where
  | invalidFormat
  | recordedMissingMapping (coin : String)
  | viaExisting (r : AddResult)
deriving DecidableEq

/-- The earlier of the two process_add_command definitions in the source (it
is shadowed by the later one and never called).  On an unmapped coin it
messages the admin and returns a trade-recorded reply without having touched
the store; otherwise its elided body, marked in the source as the existing
trade processing code, is taken to be the later definition. -/
def process_add_command_v1 (m : Mappings) (st : Store) (now : String)
    (parts : List String) : Store × List TgMsg × AddResultV1 :=
  if parts.length ≠ 7 then (st, [], .invalidFormat)
  else
    let coin := (parts.getD 2 "").pyUpper
    let chk := check_coin_mapping m coin
    if chk.1 = false then (st, chk.2, .recordedMissingMapping coin)
    else
      let res := process_add_command st now parts
      (res.1, chk.2 ++ res.2.1, .viaExisting res.2.2)

/-- One data row of the DailyPrices sheet: timestamp, coin symbol, CoinGecko
identifier, USD price. -/
structure PriceRow where
  timestamp : String
  symbol : String
  cgId : String
  usd : ℚ
deriving DecidableEq

/-- Slices of at most 250 elements, as the batch loop of record_prices takes
them; structural recursion on a fuel argument bounded by the list length. -/
def chunksAux {α : Type} : Nat → List α → List (List α)
  | 0, _ => []
  | _, [] => []
  | fuel + 1, l => l.take 250 :: chunksAux fuel (l.drop 250)

/-- The batches of at most 250 coins processed by one refresh cycle. -/
def chunks250 {α : Type} (l : List α) : List (List α) :=
  chunksAux l.length l

/-- The valid_coins list of record_prices: tracked coins with a truthy mapping
(the walrus test drops both unmapped symbols and empty identifiers), paired
with their CoinGecko identifiers in tracking order. -/
def valid_coins (m : Mappings) (coins : List String) : List (String × String) :=
  coins.filterMap (fun symbol =>
    match m symbol with
    | some cgid => if cgid = "" then none else some (symbol, cgid)
    | none => none)

/-- Rows produced for one batch: none when the batched price fetch failed
(fetch returns none on a request error); otherwise one row per batch coin
whose usd entry is present and truthy (a zero price is falsy and skipped). -/
def batch_rows (fetch : List String → Option (String → Option ℚ)) (now : String)
    (batch : List (String × String)) : List PriceRow :=
  match fetch (batch.map Prod.snd) with
  | none => []
  | some prices =>
    batch.filterMap (fun p =>
      match prices p.2 with
      | some usd => if usd = 0 then none else some (PriceRow.mk now p.1 p.2 usd)
      | none => none)

/-- record_prices, one refresh cycle over the DailyPrices data rows: build the
valid coin list, return unchanged when it is empty, and otherwise append the
rows of each batch whose fetch produced data.  The mapping table, the tracked
coin list, the price fetch and the cycle timestamp are explicit parameters in
place of the sheet reads and network calls. -/
def record_prices (m : Mappings) (coins : List String)
    (fetch : List String → Option (String → Option ℚ)) (now : String)
    (log : List PriceRow) : List PriceRow :=
  let vc := valid_coins m coins
  if vc.isEmpty then log
  else
    (chunks250 vc).foldl
      (fun lg batch =>
        let rows := batch_rows fetch now batch
        if rows.isEmpty then lg else lg ++ rows)
      log

/-- The rows one refresh cycle appends, batch by batch. -/
def cycle_rows (m : Mappings) (coins : List String)
    (fetch : List String → Option (String → Option ℚ)) (now : String) :
    List PriceRow :=
  (chunks250 (valid_coins m coins)).flatMap (batch_rows fetch now)

/-! Derived quantities named by the specification, for comparison with the
results computed by the source functions. -/

/-- Quantity of a trade signed by its side. -/
def Trade.signed (t : Trade) : ℚ :=
  match t.side with
  | .buy => t.quantity
  | .sell => -t.quantity

/-- Sum of signed quantities over a list of trades. -/
def signedSum (ts : List Trade) : ℚ := (ts.map Trade.signed).sum

/-- Whether a trade is a BUY. -/
def Trade.isBuy (t : Trade) : Bool := t.side == Side.buy

/-- The BUY filter applied by get_average_buy_price for a scope: with a person
scope the coin cell is compared after uppercasing, without one only the side
is tested. -/
def buyPred (coinScope : Option String) (t : Trade) : Bool :=
  match coinScope with
  | none => t.isBuy
  | some c => (t.coin.pyUpper == c) && t.isBuy

/-- Spec formula: signedQuantity is the BUY quantity sum minus the SELL
quantity sum. -/
def spec_signedQuantity (ts : List Trade) : ℚ :=
  ((ts.filter (fun t => t.side == Side.buy)).map Trade.quantity).sum -
  ((ts.filter (fun t => t.side == Side.sell)).map Trade.quantity).sum

/-- Spec formula: the BUY quantity sum of a scope. -/
def spec_buyQtySum (coinScope : Option String) (ts : List Trade) : ℚ :=
  ((ts.filter (buyPred coinScope)).map Trade.quantity).sum

/-- Spec formula: the BUY notional sum of a scope. -/
def spec_buyCostSum (coinScope : Option String) (ts : List Trade) : ℚ :=
  ((ts.filter (buyPred coinScope)).map (fun t => t.price * t.quantity)).sum

/-! Evaluation of the row scans on recorder-written rows. -/

theorem side_str_toUpper (s : Side) : s.str.pyUpper = s.str := by
  cases s <;> rfl

theorem buy_pyUpper : ("BUY" : String).pyUpper = "BUY" := rfl

theorem sell_pyUpper : ("SELL" : String).pyUpper = "SELL" := rfl

theorem sell_ne_buy : ¬ (("SELL" : String) = "BUY") := by decide

theorem holdingsStep_tradeRow_none (acc : ℚ) (t : Trade) :
    holdingsStep none acc (tradeRow t) = .ok (acc + t.signed) := by
  cases h : t.side <;>
    simp [holdingsStep, tradeRow, Cell.upper?, Cell.toNum?, buy_pyUpper,
      sell_pyUpper, sell_ne_buy, Side.str, Trade.signed, h, sub_eq_add_neg]

theorem holdingsStep_tradeRow_some (c : String) (acc : ℚ) (t : Trade) :
    holdingsStep (some c) acc (tradeRow t) =
      .ok (if t.coin.pyUpper == c then acc + t.signed else acc) := by
  rcases hc : t.coin.pyUpper == c with _ | _ <;>
    cases h : t.side <;>
      simp [holdingsStep, tradeRow, Cell.upper?, Cell.toNum?, buy_pyUpper,
        sell_pyUpper, sell_ne_buy, Side.str, Trade.signed, h, hc, sub_eq_add_neg]

theorem holdingsScan_none_tradeRows (ts : List Trade) :
    ∀ acc : ℚ, holdingsScan none acc (ts.map tradeRow) = .ok (acc + signedSum ts) := by
  induction ts with
  | nil => intro acc; simp [holdingsScan, signedSum]
  | cons t ts ih =>
    intro acc
    simp only [List.map_cons, holdingsScan, holdingsStep_tradeRow_none, ih,
      signedSum, List.sum_cons]
    ring_nf

theorem holdingsScan_some_tradeRows (c : String) (ts : List Trade) :
    ∀ acc : ℚ, holdingsScan (some c) acc (ts.map tradeRow) =
      .ok (acc + signedSum (ts.filter (fun t => t.coin.pyUpper == c))) := by
  induction ts with
  | nil => intro acc; simp [holdingsScan, signedSum]
  | cons t ts ih =>
    intro acc
    rcases hc : t.coin.pyUpper == c with _ | _
    · simp only [List.map_cons, holdingsScan, holdingsStep_tradeRow_some, hc,
        if_false, ih, List.filter_cons, Bool.false_eq_true, reduceIte]
    · simp only [List.map_cons, holdingsScan, holdingsStep_tradeRow_some, hc,
        if_true, ih, List.filter_cons, reduceIte, signedSum, List.map_cons,
        List.sum_cons]
      ring_nf

theorem signedSum_eq_spec (ts : List Trade) :
    signedSum ts = spec_signedQuantity ts := by
  induction ts with
  | nil => simp [signedSum, spec_signedQuantity]
  | cons t ts ih =>
    simp only [signedSum, spec_signedQuantity, List.map_cons, List.sum_cons,
      List.filter_cons] at ih ⊢
    cases h : t.side <;> simp [h, Trade.signed] <;> rw [ih] <;> ring

theorem rowIsBuy_tradeRow (sc : Option String) (t : Trade) :
    rowIsBuy sc (tradeRow t) = .ok (buyPred sc t) := by
  cases sc with
  | none =>
    cases h : t.side <;>
      simp [rowIsBuy, tradeRow, Cell.upper?, buy_pyUpper, sell_pyUpper,
        sell_ne_buy, Side.str, buyPred, Trade.isBuy, h]
  | some c =>
    rcases hc : t.coin.pyUpper == c with _ | _ <;>
      cases h : t.side <;>
        simp [rowIsBuy, tradeRow, Cell.upper?, buy_pyUpper, sell_pyUpper,
          sell_ne_buy, Side.str, buyPred, Trade.isBuy, h, hc]

theorem filterBuys_tradeRows (sc : Option String) (ts : List Trade) :
    filterBuys sc (ts.map tradeRow) = .ok ((ts.filter (buyPred sc)).map tradeRow) := by
  induction ts with
  | nil => simp [filterBuys]
  | cons t ts ih =>
    rcases hb : buyPred sc t with _ | _ <;>
      simp [filterBuys, rowIsBuy_tradeRow, ih, List.filter_cons, hb]

theorem sumBuys_tradeRows (ts : List Trade) :
    ∀ c0 q0 : ℚ, sumBuys c0 q0 (ts.map tradeRow) =
      (c0 + (ts.map (fun t => t.price * t.quantity)).sum,
       q0 + (ts.map Trade.quantity).sum) := by
  induction ts with
  | nil => intro c0 q0; simp [sumBuys]
  | cons t ts ih =>
    intro c0 q0
    have h6 : ((tradeRow t)[6]?).bind Cell.toNum? = some (t.price * t.quantity) := rfl
    have h4 : ((tradeRow t)[4]?).bind Cell.toNum? = some t.quantity := rfl
    simp only [List.map_cons, sumBuys, h6, h4, List.sum_cons, ih, Prod.mk.injEq]
    constructor <;> ring

theorem avgScan_tradeRows (sc : Option String) (ts : List Trade) :
    avgScan sc (ts.map tradeRow) =
      .ok (if spec_buyQtySum sc ts = 0 then (none, some noBuysMsg)
           else (some (spec_buyCostSum sc ts / spec_buyQtySum sc ts), none)) := by
  by_cases h : ((ts.filter (buyPred sc)).map Trade.quantity).sum = 0 <;>
    simp [avgScan, filterBuys_tradeRows, sumBuys_tradeRows, spec_buyQtySum,
      spec_buyCostSum, h]

/-- C2: the signed quantity reported by the holdings operations equals the sum
of quantity over BUY rows minus the sum of quantity over SELL rows of the
scanned ledger, restricted to the queried coin when a person scope is given. -/
theorem C2_holdings_signed_quantity :
    (∀ (st : Store) (coin : String) (ts : List Trade),
      sheet_exists st coin = true →
      tableRows st coin = ts.map tradeRow →
      (calculate_total_holdings_for_coin st coin).qty? =
        some (spec_signedQuantity ts)) ∧
    (∀ (st : Store) (person coin : String) (ts : List Trade),
      sheet_exists st person = true →
      tableRows st person = ts.map tradeRow →
      (calculate_total_holdings_for_person_and_coin st person coin).qty? =
        some (spec_signedQuantity (ts.filter (fun t => t.coin.pyUpper == coin)))) := by
  constructor
  · intro st coin ts hex hrows
    simp [calculate_total_holdings_for_coin, hex, hrows,
      holdingsScan_none_tradeRows, HoldingsResult.qty?, signedSum_eq_spec]
  · intro st person coin ts hex hrows
    simp [calculate_total_holdings_for_person_and_coin, hex, hrows,
      holdingsScan_some_tradeRows, HoldingsResult.qty?, signedSum_eq_spec]

/-- Trade data for the C2 witness, the BUY leg of the spec scenario. -/
def c2buy : Trade := ⟨"t1", "alice", "BTC", 50000, 1/10, "binance", .buy⟩

/-- Trade data for the C2 witness, the SELL leg of the spec scenario. -/
def c2sell : Trade := ⟨"t2", "alice", "BTC", 60000, 1/20, "binance", .sell⟩

/-- Sheet contents for the C2 witness. -/
def c2store : Store :=
  ⟨["BTC", "alice"],
   [("BTC", tradeRow c2buy), ("BTC", tradeRow c2sell),
    ("alice", tradeRow c2buy), ("alice", tradeRow c2sell)]⟩

theorem C2_holdings_signed_quantity_witness :
    (calculate_total_holdings_for_coin c2store "BTC").qty? =
      some (spec_signedQuantity [c2buy, c2sell]) ∧
    (calculate_total_holdings_for_person_and_coin c2store "alice" "BTC").qty? =
      some (spec_signedQuantity
        ([c2buy, c2sell].filter (fun t => t.coin.pyUpper == "BTC"))) :=
  ⟨C2_holdings_signed_quantity.1 c2store "BTC" [c2buy, c2sell] (by decide) rfl,
   C2_holdings_signed_quantity.2 c2store "alice" "BTC" [c2buy, c2sell]
     (by decide) rfl⟩

/-- C3: when the ledger of the queried scope exists and holds recorder-written
rows, the average-cost operation returns the no-buys error value exactly when
the BUY-quantity sum of the scope is zero; the result is then an error value
with no average price in it rather than a zero average or an escaping
exception, and the holdings reply omits the USD valuation. -/
theorem C3_no_buys_error_iff_zero_buy_sum :
    (∀ (st : Store) (coin : String) (ts : List Trade),
      sheet_exists st coin = true →
      tableRows st coin = ts.map tradeRow →
      ((get_average_buy_price st coin none = (none, some noBuysMsg)) ↔
        spec_buyQtySum none ts = 0) ∧
      (spec_buyQtySum none ts = 0 →
        (calculate_total_holdings_for_coin st coin).usd? = none)) ∧
    (∀ (st : Store) (person coin : String) (ts : List Trade),
      sheet_exists st person = true →
      tableRows st person = ts.map tradeRow →
      ((get_average_buy_price st coin (some person) = (none, some noBuysMsg)) ↔
        spec_buyQtySum (some coin) ts = 0) ∧
      (spec_buyQtySum (some coin) ts = 0 →
        (calculate_total_holdings_for_person_and_coin st person coin).usd? = none)) := by
  constructor
  · intro st coin ts hex hrows
    by_cases h : spec_buyQtySum none ts = 0 <;>
      simp [get_average_buy_price, calculate_total_holdings_for_coin, hex,
        hrows, avgScan_tradeRows, holdingsScan_none_tradeRows, h,
        HoldingsResult.usd?]
  · intro st person coin ts hex hrows
    by_cases h : spec_buyQtySum (some coin) ts = 0 <;>
      simp [get_average_buy_price, calculate_total_holdings_for_person_and_coin,
        hex, hrows, avgScan_tradeRows, holdingsScan_some_tradeRows, h,
        HoldingsResult.usd?]

/-- Sheet contents for the C3 witness: one SELL row and no BUY row. -/
def c3sell : Trade := ⟨"t1", "bob", "DOGE", 1/2, 30, "kraken", .sell⟩

/-- Store for the C3 witness. -/
def c3store : Store :=
  ⟨["DOGE", "bob"], [("DOGE", tradeRow c3sell), ("bob", tradeRow c3sell)]⟩

theorem C3_no_buys_error_iff_zero_buy_sum_witness :
    (((get_average_buy_price c3store "DOGE" none = (none, some noBuysMsg)) ↔
        spec_buyQtySum none [c3sell] = 0) ∧
      (spec_buyQtySum none [c3sell] = 0 →
        (calculate_total_holdings_for_coin c3store "DOGE").usd? = none)) ∧
    (((get_average_buy_price c3store "DOGE" (some "bob") = (none, some noBuysMsg)) ↔
        spec_buyQtySum (some "DOGE") [c3sell] = 0) ∧
      (spec_buyQtySum (some "DOGE") [c3sell] = 0 →
        (calculate_total_holdings_for_person_and_coin c3store "bob" "DOGE").usd? = none)) :=
  ⟨C3_no_buys_error_iff_zero_buy_sum.1 c3store "DOGE" [c3sell] (by decide) rfl,
   C3_no_buys_error_iff_zero_buy_sum.2 c3store "bob" "DOGE" [c3sell]
     (by decide) rfl⟩

/-! Effect of one recorded trade on the store. -/

theorem create_sheet_log (st : Store) (n : String) :
    (create_sheet_if_not_exists st n).log = st.log := by
  unfold create_sheet_if_not_exists; split <;> rfl

theorem create_sheet_sheets (st : Store) (n : String) :
    ∃ l, (create_sheet_if_not_exists st n).sheets = st.sheets ++ l := by
  unfold create_sheet_if_not_exists
  split
  · exact ⟨[], by simp⟩
  · exact ⟨[n], rfl⟩

theorem recordTrade_log (st : Store) (t : Trade) :
    (recordTrade st t).log = st.log ++
      [("Master", tradeRow t), (t.coin, tradeRow t), (t.person, tradeRow t)] := by
  simp [recordTrade, appendRow, create_sheet_log]

theorem recordTrade_sheets (st : Store) (t : Trade) :
    ∃ l, (recordTrade st t).sheets = st.sheets ++ l := by
  obtain ⟨l1, h1⟩ := create_sheet_sheets st "Master"
  obtain ⟨l2, h2⟩ := create_sheet_sheets (create_sheet_if_not_exists st "Master") t.coin
  obtain ⟨l3, h3⟩ :=
    create_sheet_sheets
      (create_sheet_if_not_exists (create_sheet_if_not_exists st "Master") t.coin) t.person
  exact ⟨l1 ++ l2 ++ l3, by simp [recordTrade, appendRow, h3, h2, h1]⟩

theorem sheet_exists_recordTrade_mono (st : Store) (t : Trade) (k : String)
    (hex : sheet_exists st k = true) : sheet_exists (recordTrade st t) k = true := by
  obtain ⟨l, hl⟩ := recordTrade_sheets st t
  rw [sheet_exists] at hex ⊢
  rw [hl, List.any_append, hex, Bool.true_or]

theorem tableRows_recordTrade (st : Store) (t : Trade) (k : String) :
    ∃ extra, tableRows (recordTrade st t) k = tableRows st k ++ extra ∧
      ∀ r ∈ extra, r = tradeRow t := by
  refine ⟨([(("Master" : String), tradeRow t), (t.coin, tradeRow t),
    (t.person, tradeRow t)].filter (fun e => e.1 == k)).map Prod.snd, ?_, ?_⟩
  · rw [tableRows, tableRows, recordTrade_log, List.filter_append, List.map_append]
  · intro r hr
    simp only [List.mem_map, List.mem_filter, List.mem_cons,
      List.not_mem_nil, or_false] at hr
    obtain ⟨e, he, rfl⟩ := hr
    rcases he.1 with h | h | h <;> rw [h]

theorem tableRows_nil_of_not_exists (st : Store) (k : String)
    (hwf : ∀ e ∈ st.log, e.1 ∈ st.sheets)
    (hex : sheet_exists st k = false) : tableRows st k = [] := by
  rw [tableRows, List.map_eq_nil_iff, List.filter_eq_nil_iff]
  intro e he hk
  rw [beq_iff_eq] at hk
  have hmem := hwf e he
  rw [hk] at hmem
  have : sheet_exists st k = true := by
    rw [sheet_exists, List.any_eq_true]
    exact ⟨k, hmem, by simp⟩
  rw [this] at hex
  exact Bool.noConfusion hex

theorem buyPred_sell (sc : Option String) (t : Trade) (h : t.side = Side.sell) :
    buyPred sc t = false := by
  cases sc <;> simp [buyPred, Trade.isBuy, h]

theorem filterBuys_all_false (sc : Option String) (extra : List Row)
    (hx : ∀ r ∈ extra, rowIsBuy sc r = .ok false) :
    filterBuys sc extra = .ok [] := by
  induction extra with
  | nil => rfl
  | cons r rs ih =>
    rw [filterBuys, hx r (List.mem_cons_self r rs),
      ih (fun r h => hx r (List.mem_cons_of_mem _ h))]
    simp

theorem filterBuys_append_skips (sc : Option String) (rows extra : List Row)
    (hx : ∀ r ∈ extra, rowIsBuy sc r = .ok false) :
    filterBuys sc (rows ++ extra) = filterBuys sc rows := by
  induction rows with
  | nil => rw [List.nil_append, filterBuys_all_false sc extra hx]; rfl
  | cons r rs ih =>
    rw [List.cons_append, filterBuys, filterBuys, ih]

theorem avgScan_append_sells (sc : Option String) (rows extra : List Row)
    (hx : ∀ r ∈ extra, rowIsBuy sc r = .ok false) :
    avgScan sc (rows ++ extra) = avgScan sc rows := by
  rw [avgScan, avgScan, filterBuys_append_skips sc rows extra hx]

theorem get_avg_fst_append_sell (st : Store) (t : Trade) (hside : t.side = Side.sell)
    (hwf : ∀ e ∈ st.log, e.1 ∈ st.sheets) (coin : String) (pscope : Option String) :
    (get_average_buy_price (recordTrade st t) coin pscope).1 =
      (get_average_buy_price st coin pscope).1 := by
  cases pscope with
  | some p =>
    obtain ⟨extra, hrows, hext⟩ := tableRows_recordTrade st t p
    have hx : ∀ r ∈ extra, rowIsBuy (some coin) r = .ok false := by
      intro r hr
      rw [hext r hr, rowIsBuy_tradeRow, buyPred_sell _ _ hside]
    cases hex : sheet_exists st p with
    | true =>
      have hex2 := sheet_exists_recordTrade_mono st t p hex
      rw [get_average_buy_price, get_average_buy_price, hex, hex2, hrows,
        avgScan_append_sells _ _ _ hx]
    | false =>
      cases hex2 : sheet_exists (recordTrade st t) p with
      | false => simp [get_average_buy_price, hex, hex2]
      | true =>
        have hnil := tableRows_nil_of_not_exists st p hwf hex
        rw [hnil, List.nil_append] at hrows
        simp only [get_average_buy_price, hex, hex2, hrows, if_true, if_false,
          Bool.false_eq_true]
        rw [avgScan, filterBuys_all_false _ _ hx]
        simp [sumBuys]
  | none =>
    obtain ⟨extra, hrows, hext⟩ := tableRows_recordTrade st t coin
    have hx : ∀ r ∈ extra, rowIsBuy none r = .ok false := by
      intro r hr
      rw [hext r hr, rowIsBuy_tradeRow, buyPred_sell _ _ hside]
    cases hex : sheet_exists st coin with
    | true =>
      have hex2 := sheet_exists_recordTrade_mono st t coin hex
      rw [get_average_buy_price, get_average_buy_price, hex, hex2, hrows,
        avgScan_append_sells _ _ _ hx]
    | false =>
      cases hex2 : sheet_exists (recordTrade st t) coin with
      | false => simp [get_average_buy_price, hex, hex2]
      | true =>
        have hnil := tableRows_nil_of_not_exists st coin hwf hex
        rw [hnil, List.nil_append] at hrows
        simp only [get_average_buy_price, hex, hex2, hrows, if_true, if_false,
          Bool.false_eq_true]
        rw [avgScan, filterBuys_all_false _ _ hx]
        simp [sumBuys]

/-- C4: appending a SELL trade through the recorder leaves the computed
average cost of every scope unchanged, and on recorder-written rows the
average cost is the BUY notional sum divided by the BUY quantity sum, so it
depends only on BUY rows.  The well-formedness hypothesis says every logged
row belongs to an existing sheet, which the recorder maintains. -/
theorem C4_sell_preserves_average_cost :
    (∀ (st : Store) (now : String) (parts : List String),
      (∀ e ∈ st.log, e.1 ∈ st.sheets) →
      (parts.getD 6 "").pyUpper = "SELL" →
      ∀ (coin : String) (pscope : Option String),
        (get_average_buy_price (process_add_command st now parts).1 coin pscope).1 =
          (get_average_buy_price st coin pscope).1) ∧
    (∀ (st : Store) (coin : String) (ts : List Trade),
      sheet_exists st coin = true →
      tableRows st coin = ts.map tradeRow →
      spec_buyQtySum none ts ≠ 0 →
      (get_average_buy_price st coin none).1 =
        some (spec_buyCostSum none ts / spec_buyQtySum none ts)) ∧
    (∀ (st : Store) (person coin : String) (ts : List Trade),
      sheet_exists st person = true →
      tableRows st person = ts.map tradeRow →
      spec_buyQtySum (some coin) ts ≠ 0 →
      (get_average_buy_price st coin (some person)).1 =
        some (spec_buyCostSum (some coin) ts / spec_buyQtySum (some coin) ts)) := by
  refine ⟨?_, ?_, ?_⟩
  · intro st now parts hwf hsell coin pscope
    have hsell2 : ((parts[6]?).getD "").pyUpper = "SELL" := by
      simpa [List.getD_eq_getElem?_getD] using hsell
    by_cases h7 : parts.length ≠ 7
    · simp [process_add_command, h7]
    · cases hp : parseDecimal? ((parts[3]?).getD "") with
      | none => simp [process_add_command, h7, hp]
      | some price =>
        cases hq : parseDecimal? ((parts[4]?).getD "") with
        | none => simp [process_add_command, h7, hp, hq]
        | some quantity =>
          by_cases hv : price ≤ 0 ∨ quantity ≤ 0
          · simp [process_add_command, h7, hp, hq, hsell2, hv]
          · have hstep :
                (process_add_command st now parts).1 =
                  recordTrade st
                    ⟨now, ((parts[1]?).getD "").pyLower, ((parts[2]?).getD "").pyUpper,
                      price, quantity, (parts[5]?).getD "", Side.sell⟩ := by
              simp [process_add_command, h7, hp, hq, hsell2, hv]
            rw [hstep]
            exact get_avg_fst_append_sell st _ rfl hwf coin pscope
  · intro st coin ts hex hrows h
    simp [get_average_buy_price, hex, hrows, avgScan_tradeRows, h]
  · intro st person coin ts hex hrows h
    simp [get_average_buy_price, hex, hrows, avgScan_tradeRows, h]

/-- Command words for the C4 witness: a SELL order. -/
def c4parts : List String := ["/add", "bob", "ETH", "10", "2", "kraken", "SELL"]

theorem C4_sell_preserves_average_cost_witness :
    ((get_average_buy_price (process_add_command c2store "t3" c4parts).1 "BTC" none).1 =
      (get_average_buy_price c2store "BTC" none).1) ∧
    ((get_average_buy_price c2store "BTC" none).1 =
      some (spec_buyCostSum none [c2buy, c2sell] / spec_buyQtySum none [c2buy, c2sell])) ∧
    ((get_average_buy_price c2store "BTC" (some "alice")).1 =
      some (spec_buyCostSum (some "BTC") [c2buy, c2sell] /
        spec_buyQtySum (some "BTC") [c2buy, c2sell])) :=
  ⟨C4_sell_preserves_average_cost.1 c2store "t3" c4parts (by decide) (by decide)
      "BTC" none,
   C4_sell_preserves_average_cost.2.1 c2store "BTC" [c2buy, c2sell] (by decide) rfl
      (by
        have hpy : ("BTC" : String).pyUpper = "BTC" := rfl
        simp [spec_buyQtySum, buyPred, Trade.isBuy, c2buy, c2sell, hpy]),
   C4_sell_preserves_average_cost.2.2 c2store "alice" "BTC" [c2buy, c2sell]
      (by decide) rfl
      (by
        have hpy : ("BTC" : String).pyUpper = "BTC" := rfl
        simp [spec_buyQtySum, buyPred, Trade.isBuy, c2buy, c2sell, hpy])⟩

/-- C9: a record call whose parsed price or quantity is nonpositive or whose
side is neither BUY nor SELL returns a validation reply, leaves the store
unchanged with no row appended to any ledger, sends no message, and raises
no exception. -/
theorem C9_validation_failure_state_unchanged (st : Store) (now : String)
    (parts : List String) (price quantity : ℚ)
    (h7 : parts.length = 7)
    (hp : parseDecimal? ((parts[3]?).getD "") = some price)
    (hq : parseDecimal? ((parts[4]?).getD "") = some quantity)
    (hbad : price ≤ 0 ∨ quantity ≤ 0 ∨
      (((parts[6]?).getD "").pyUpper ≠ "BUY" ∧ ((parts[6]?).getD "").pyUpper ≠ "SELL")) :
    (process_add_command st now parts).1 = st ∧
    ((process_add_command st now parts).2.2 = AddResult.invalidOrderType ∨
      (process_add_command st now parts).2.2 = AddResult.invalidPriceQty) ∧
    (process_add_command st now parts).2.1 = [] := by
  have h7n : ¬ parts.length ≠ 7 := by rw [h7]; simp
  by_cases hot :
      ((parts[6]?).getD "").pyUpper ≠ "BUY" ∧ ((parts[6]?).getD "").pyUpper ≠ "SELL"
  · simp [process_add_command, h7n, hp, hq, hot]
  · have hpq : price ≤ 0 ∨ quantity ≤ 0 := by tauto
    simp [process_add_command, h7n, hp, hq, hot, hpq]

/-- Command words for the C9 witness: an invalid order side. -/
def c9parts : List String := ["/add", "alice", "BTC", "1", "2", "kraken", "HODL"]

theorem C9_validation_failure_state_unchanged_witness :
    (process_add_command c2store "t" c9parts).1 = c2store ∧
    ((process_add_command c2store "t" c9parts).2.2 = AddResult.invalidOrderType ∨
      (process_add_command c2store "t" c9parts).2.2 = AddResult.invalidPriceQty) ∧
    (process_add_command c2store "t" c9parts).2.1 = [] :=
  C9_validation_failure_state_unchanged c2store "t" c9parts 1 2 (by decide)
    (by simp +decide [c9parts, parseDecimal?, decDigitsVal])
    (by simp +decide [c9parts, parseDecimal?, decDigitsVal])
    (Or.inr (Or.inr (by decide)))

/-- C5 counterexample: with a listing that assigns BTC twice, resolution
returns the later identifier, not the first-assigned one the claim names. -/
theorem C5_first_write_wins_counterexample :
    resolve (get_coin_mappings [["BTC", "bitcoin"], ["BTC", "wrapped-bitcoin"]])
        "BTC" = some "wrapped-bitcoin" ∧
    resolve (get_coin_mappings [["BTC", "bitcoin"], ["BTC", "wrapped-bitcoin"]])
        "BTC" ≠ some "bitcoin" := by
  constructor <;> decide

theorem mapStep_foldl_no_assign (s : String) (post : List (List String))
    (h : ∀ row ∈ post, ∀ k2 v2 r, row = k2 :: v2 :: r → k2.pyUpper ≠ s) :
    ∀ d : Mappings, (post.foldl mapStep d) s = d s := by
  induction post with
  | nil => intro d; rfl
  | cons row rows ih =>
    intro d
    rw [List.foldl_cons,
      ih (fun r hr => h r (List.mem_cons_of_mem _ hr))]
    cases row with
    | nil => rfl
    | cons k2 tail =>
      cases tail with
      | nil => rfl
      | cons v2 r =>
        have hk := h _ (List.mem_cons_self _ _) k2 v2 r rfl
        have hs : ¬ (s = k2.pyUpper) := fun hs => hk hs.symm
        simp [mapStep, hs]

/-- C5 amended: symbol-mapping resolution is last-write-wins: resolve returns
the identifier of the last listing row that assigns the symbol, overwriting
any earlier assignment. -/
theorem C5_last_write_wins (pre post : List (List String)) (k v : String)
    (extra : List String)
    (hpost : ∀ row ∈ post, ∀ k2 v2 r, row = k2 :: v2 :: r → k2.pyUpper ≠ k.pyUpper) :
    resolve (get_coin_mappings (pre ++ (k :: v :: extra) :: post)) k.pyUpper =
      some v.pyLower := by
  unfold resolve get_coin_mappings
  rw [List.foldl_append, List.foldl_cons, mapStep_foldl_no_assign _ _ hpost]
  simp [mapStep]

theorem C5_last_write_wins_witness :
    resolve (get_coin_mappings ([["BTC", "bitcoin"]] ++
        (["BTC", "wrapped-bitcoin"] : List String) :: []))
        ("BTC" : String).pyUpper = some ("wrapped-bitcoin" : String).pyLower :=
  C5_last_write_wins [["BTC", "bitcoin"]] [] "BTC" "wrapped-bitcoin" []
    (by simp)

/-- Command words of the C7 failing input: a valid BUY whose coin NEW has no
symbol mapping. -/
def c7parts : List String := ["/add", "alice", "NEW", "10", "2", "binance", "BUY"]

/-- The trade the C7 command describes. -/
def c7trade : Trade := ⟨"t", "alice", "NEW", 10, 2, "binance", .buy⟩

/-- C7: with an empty mapping table, the effective process_add_command (the
later definition, which shadows the earlier one) appends the trade to the
Master, coin and person ledgers but sends no notification at all, while the
shadowed earlier definition sends one notification but returns before any
ledger is touched even though its reply claims the trade was recorded. -/
theorem C7_unmapped_coin_notification_bug :
    ((process_add_command Store.empty "t" c7parts).2.1 = [] ∧
     tableRows (process_add_command Store.empty "t" c7parts).1 "Master" = [tradeRow c7trade] ∧
     tableRows (process_add_command Store.empty "t" c7parts).1 "NEW" = [tradeRow c7trade] ∧
     tableRows (process_add_command Store.empty "t" c7parts).1 "alice" = [tradeRow c7trade]) ∧
    ((process_add_command_v1 (fun _ => none) Store.empty "t" c7parts).2.1 =
        [TgMsg.newCoinAlert "NEW"] ∧
     (process_add_command_v1 (fun _ => none) Store.empty "t" c7parts).1.log = []) := by
  have hp : parseDecimal? "10" = some 10 := by simp +decide [parseDecimal?, decDigitsVal]
  have hq : parseDecimal? "2" = some 2 := by simp +decide [parseDecimal?, decDigitsVal]
  have hlow : ("alice" : String).pyLower = "alice" := rfl
  have hup : ("NEW" : String).pyUpper = "NEW" := rfl
  have hbuy : ("BUY" : String).pyUpper = "BUY" := rfl
  have hnn : ¬ ((10 : ℚ) ≤ 0 ∨ (2 : ℚ) ≤ 0) := by norm_num
  constructor
  · simp [process_add_command, c7parts, hp, hq, hlow, hup, hbuy, hnn,
      recordTrade, create_sheet_if_not_exists, appendRow, tableRows,
      Store.empty, tradeRow, c7trade]
  · simp [process_add_command_v1, check_coin_mapping, c7parts, Store.empty, hup]

/-- Condition under which the claim expects the holdings loops to skip a row,
restricted to rows whose coin and side cells are text (a non-text cell there
is uppercased outside the inner try and aborts the scan instead). -/
def holdingsSkippable (r : Row) : Prop :=
  r.length < 8 ∨
    ((∃ s, r[2]? = some (Cell.str s)) ∧ (∃ s, r[7]? = some (Cell.str s)) ∧
      (r[4]?).bind Cell.toNum? = none)

/-- Condition under which the claim expects the average-cost loop to skip a
row, with the same text restriction on the coin and side cells. -/
def avgSkippable (r : Row) : Prop :=
  r.length < 8 ∨
    ((∃ s, r[2]? = some (Cell.str s)) ∧ (∃ s, r[7]? = some (Cell.str s)) ∧
      ((r[6]?).bind Cell.toNum? = none ∨ (r[4]?).bind Cell.toNum? = none))

theorem holdingsStep_skippable (sc : Option String) (acc : ℚ) (bad : Row)
    (h : holdingsSkippable bad) : holdingsStep sc acc bad = .ok acc := by
  rcases h with h | ⟨⟨s2, h2⟩, ⟨s7, h7⟩, h4⟩
  · simp [holdingsStep, h]
  · by_cases hlen : bad.length < 8
    · simp [holdingsStep, hlen]
    · cases sc with
      | none => simp [holdingsStep, hlen, h7, h4, Cell.upper?]
      | some c =>
        by_cases hc : s2.pyUpper == c <;>
          simp [holdingsStep, hlen, h2, h7, h4, Cell.upper?, hc]

theorem holdingsScan_skippable (sc : Option String) (bad : Row)
    (h : holdingsSkippable bad) (post : List Row) :
    ∀ (pre : List Row) (acc : ℚ),
      holdingsScan sc acc (pre ++ bad :: post) = holdingsScan sc acc (pre ++ post) := by
  intro pre
  induction pre with
  | nil =>
    intro acc
    rw [List.nil_append, List.nil_append, holdingsScan,
      holdingsStep_skippable sc acc bad h]
  | cons r pre ih =>
    intro acc
    rw [List.cons_append, List.cons_append, holdingsScan, holdingsScan]
    cases holdingsStep sc acc r with
    | error e => rfl
    | ok acc2 => exact ih acc2

theorem rowIsBuy_skippable (sc : Option String) (bad : Row)
    (h : avgSkippable bad) : ∃ b, rowIsBuy sc bad = .ok b := by
  rcases h with h | ⟨⟨s2, h2⟩, ⟨s7, h7⟩, _⟩
  · exact ⟨false, by simp [rowIsBuy, h]⟩
  · by_cases hlen : bad.length < 8
    · exact ⟨false, by simp [rowIsBuy, hlen]⟩
    · cases sc with
      | none => exact ⟨s7.pyUpper == "BUY", by simp [rowIsBuy, hlen, h7, Cell.upper?]⟩
      | some c =>
        by_cases hc : s2.pyUpper == c
        · exact ⟨s7.pyUpper == "BUY",
            by simp [rowIsBuy, hlen, h2, h7, Cell.upper?, hc]⟩
        · exact ⟨false, by simp [rowIsBuy, hlen, h2, Cell.upper?, hc]⟩

theorem sumBuys_skippable (bad : Row) (h : avgSkippable bad)
    (hlen : ¬ bad.length < 8) (rest : List Row) :
    ∀ c q : ℚ, sumBuys c q (bad :: rest) = sumBuys c q rest := by
  intro c q
  rcases h with h | ⟨_, _, h46⟩
  · exact absurd h hlen
  · rcases h46 with h6 | h4
    · rw [sumBuys, h6]
    · rw [sumBuys, h4]
      cases (bad[6]?).bind Cell.toNum? <;> rfl

theorem filterBuys_middle (sc : Option String) (bad : Row)
    (h : avgSkippable bad) (post : List Row) :
    ∀ pre : List Row,
      filterBuys sc (pre ++ bad :: post) = filterBuys sc (pre ++ post) ∨
      ∃ F1 F2, filterBuys sc (pre ++ bad :: post) = .ok F1 ∧
        filterBuys sc (pre ++ post) = .ok F2 ∧
        ∀ c q : ℚ, sumBuys c q F1 = sumBuys c q F2 := by
  intro pre
  induction pre with
  | nil =>
    obtain ⟨b, hb⟩ := rowIsBuy_skippable sc bad h
    rw [List.nil_append, List.nil_append, filterBuys, hb]
    cases hf : filterBuys sc post with
    | error e => left; rfl
    | ok rest =>
      cases b with
      | false => left; simp
      | true =>
        by_cases hlen : bad.length < 8
        · exfalso
          have hfalse : rowIsBuy sc bad = .ok false := by simp [rowIsBuy, hlen]
          rw [hfalse] at hb
          exact Bool.false_ne_true (Except.ok.inj hb)
        · right
          exact ⟨bad :: rest, rest, by simp, rfl,
            sumBuys_skippable bad h hlen rest⟩
  | cons r pre ih =>
    rw [List.cons_append, List.cons_append, filterBuys, filterBuys]
    cases rowIsBuy sc r with
    | error e => left; rfl
    | ok br =>
      rcases ih with heq | ⟨F1, F2, h1, h2, hsum⟩
      · rw [heq]; left; rfl
      · rw [h1, h2]
        right
        refine ⟨if br then r :: F1 else F1, if br then r :: F2 else F2, rfl, rfl, ?_⟩
        intro c q
        cases br with
        | false => simpa using hsum c q
        | true =>
          simp only [if_true, reduceIte]
          rw [sumBuys, sumBuys]
          cases (r[6]?).bind Cell.toNum? with
          | none => exact hsum c q
          | some t =>
            cases (r[4]?).bind Cell.toNum? with
            | none => exact hsum c q
            | some qq => exact hsum (c + t) (q + qq)

theorem avgScan_middle (sc : Option String) (bad : Row)
    (h : avgSkippable bad) (pre post : List Row) :
    avgScan sc (pre ++ bad :: post) = avgScan sc (pre ++ post) := by
  rcases filterBuys_middle sc bad h post pre with heq | ⟨F1, F2, h1, h2, hsum⟩
  · rw [avgScan, avgScan, heq]
  · rw [avgScan, avgScan, h1, h2]
    simp only [hsum 0 0]

/-- Row whose quantity cell does not parse and whose side cell is numeric. -/
def c10crashRow : Row :=
  [.str "t", .str "p", .str "XYZ", .num 1, .str "oops", .str "ex", .num 1, .num 1]

/-- Store holding only the crash row in sheet XYZ. -/
def c10store : Store := ⟨["XYZ"], [("XYZ", c10crashRow)]⟩

/-- Row with an unparsable notional cell but a parsable quantity cell. -/
def c10notionalRow : Row :=
  [.str "t", .str "p", .str "XYZ", .num 1, .num 1, .str "ex", .str "oops", .str "BUY"]

/-- C10 counterexample: a full-length row whose quantity cell does not parse
but whose side cell is numeric makes the holdings operation fail with a
calculation error instead of being silently skipped, and a BUY row whose
notional cell does not parse still contributes its quantity to the holdings
sum instead of contributing nothing. -/
theorem C10_skip_counterexample :
    calculate_total_holdings_for_coin c10store "XYZ" =
      HoldingsResult.calcError "AttributeError" ∧
    holdingsScan none 0 [c10notionalRow] = .ok 1 := by
  constructor
  · decide
  · have hbuy : ("BUY" : String).pyUpper = "BUY" := rfl
    simp [holdingsScan, holdingsStep, c10notionalRow, Cell.upper?, Cell.toNum?,
      hbuy]

/-- C10 amended: a row with fewer than 8 cells, or a full-length row whose
coin and side cells are text and whose quantity cell (for the holdings
loops) or quantity or notional cell (for the average-cost loop) does not
parse as a number, is silently skipped: removing it from the scanned rows
changes nothing, in particular it contributes nothing to the sums and does
not make the operation fail. -/
theorem C10_unparsable_rows_skipped :
    (∀ (sc : Option String) (acc : ℚ) (pre post : List Row) (bad : Row),
      holdingsSkippable bad →
      holdingsScan sc acc (pre ++ bad :: post) = holdingsScan sc acc (pre ++ post)) ∧
    (∀ (sc : Option String) (pre post : List Row) (bad : Row),
      avgSkippable bad →
      avgScan sc (pre ++ bad :: post) = avgScan sc (pre ++ post)) :=
  ⟨fun sc acc pre post bad h => holdingsScan_skippable sc bad h post pre acc,
   fun sc pre post bad h => avgScan_middle sc bad h pre post⟩

/-- A short row for the C10 witness. -/
def c10shortRow : Row := [.str "x"]

theorem C10_unparsable_rows_skipped_witness :
    holdingsScan none 0 ([tradeRow c2buy] ++ c10shortRow :: []) =
      holdingsScan none 0 ([tradeRow c2buy] ++ []) ∧
    avgScan none ([tradeRow c2buy] ++ c10notionalRow :: []) =
      avgScan none ([tradeRow c2buy] ++ []) :=
  ⟨C10_unparsable_rows_skipped.1 none 0 [tradeRow c2buy] [] c10shortRow
      (Or.inl (by decide)),
   C10_unparsable_rows_skipped.2 none [tradeRow c2buy] [] c10notionalRow
      (Or.inr ⟨⟨"XYZ", rfl⟩, ⟨"BUY", rfl⟩, Or.inl (by decide)⟩)⟩

/-! Store contents after loading a sequence of trades. -/

/-- The three log entries one recorded trade produces, in append order. -/
def entriesOf (t : Trade) : List (String × Row) :=
  [("Master", tradeRow t), (t.coin, tradeRow t), (t.person, tradeRow t)]

/-- The rows a trade contributes to the sheet named k, beyond Master. -/
def contrib (k : String) (t : Trade) : List Row :=
  (if t.coin == k then [tradeRow t] else []) ++
    (if t.person == k then [tradeRow t] else [])

theorem foldl_record_log (ts : List Trade) :
    ∀ st : Store, (ts.foldl recordTrade st).log = st.log ++ ts.flatMap entriesOf := by
  induction ts with
  | nil => intro st; simp
  | cons t ts ih =>
    intro st
    rw [List.foldl_cons, ih, recordTrade_log, List.flatMap_cons, List.append_assoc]
    rfl

theorem loadTrades_log (ts : List Trade) :
    (loadTrades ts).log = ts.flatMap entriesOf := by
  rw [loadTrades, foldl_record_log]
  rfl

theorem filter_entries (ts : List Trade) (k : String) (hM : (("Master" : String) == k) = false) :
    ((ts.flatMap entriesOf).filter (fun e => e.1 == k)).map Prod.snd =
      ts.flatMap (contrib k) := by
  induction ts with
  | nil => rfl
  | cons t ts ih =>
    rw [List.flatMap_cons, List.filter_append, List.map_append, ih,
      List.flatMap_cons]
    congr 1
    by_cases h1 : (t.coin == k) = true <;> by_cases h2 : (t.person == k) = true <;>
      simp [entriesOf, contrib, hM, h1, h2]

theorem tableRows_loadTrades (ts : List Trade) (k : String) (hM : k ≠ "Master") :
    tableRows (loadTrades ts) k = ts.flatMap (contrib k) := by
  rw [tableRows, loadTrades_log, filter_entries]
  simp [beq_eq_false_iff_ne]
  exact fun h => hM h.symm

theorem contrib_coin_key (ts : List Trade) (k : String)
    (hnp : ∀ t ∈ ts, t.person ≠ k) :
    ts.flatMap (contrib k) = (ts.filter (fun t => t.coin == k)).map tradeRow := by
  induction ts with
  | nil => rfl
  | cons t ts ih =>
    have hp : (t.person == k) = false := by
      simp [beq_eq_false_iff_ne]
      exact hnp t (List.mem_cons_self t ts)
    rw [List.flatMap_cons, ih (fun u hu => hnp u (List.mem_cons_of_mem _ hu)),
      List.filter_cons]
    by_cases h1 : (t.coin == k) = true <;> simp [contrib, h1, hp]

theorem contrib_person_key (ts : List Trade) (k : String)
    (hnc : ∀ t ∈ ts, t.coin ≠ k) :
    ts.flatMap (contrib k) = (ts.filter (fun t => t.person == k)).map tradeRow := by
  induction ts with
  | nil => rfl
  | cons t ts ih =>
    have hc : (t.coin == k) = false := by
      simp [beq_eq_false_iff_ne]
      exact hnc t (List.mem_cons_self t ts)
    rw [List.flatMap_cons, ih (fun u hu => hnc u (List.mem_cons_of_mem _ hu)),
      List.filter_cons]
    by_cases h2 : (t.person == k) = true <;> simp [contrib, h2, hc]

/-! Sheet existence after loading. -/

theorem create_sheet_self_exists (st : Store) (n : String) :
    sheet_exists (create_sheet_if_not_exists st n) n = true := by
  rw [create_sheet_if_not_exists]
  split
  · rw [sheet_exists, List.any_eq_true]
    refine ⟨n, ?_, by simp⟩
    next h => exact List.elem_iff.mp h
  · rw [sheet_exists, List.any_eq_true]
    exact ⟨n, by simp, by simp⟩

theorem sheet_exists_create_mono (st : Store) (n k : String)
    (h : sheet_exists st k = true) :
    sheet_exists (create_sheet_if_not_exists st n) k = true := by
  obtain ⟨l, hl⟩ := create_sheet_sheets st n
  rw [sheet_exists] at h ⊢
  rw [hl, List.any_append, h, Bool.true_or]

theorem recordTrade_creates_coin (st : Store) (t : Trade) :
    sheet_exists (recordTrade st t) t.coin = true := by
  rw [recordTrade]
  have h := create_sheet_self_exists (create_sheet_if_not_exists st "Master") t.coin
  exact sheet_exists_create_mono _ _ _ h

theorem recordTrade_creates_person (st : Store) (t : Trade) :
    sheet_exists (recordTrade st t) t.person = true := by
  rw [recordTrade]
  exact create_sheet_self_exists _ t.person

theorem sheet_exists_foldl_mono (ts : List Trade) :
    ∀ st k, sheet_exists st k = true →
      sheet_exists (ts.foldl recordTrade st) k = true := by
  induction ts with
  | nil => intro st k h; exact h
  | cons t ts ih =>
    intro st k h
    exact ih _ k (sheet_exists_recordTrade_mono st t k h)

theorem loadTrades_coin_exists (ts : List Trade) (c : String)
    (hc : c ∈ ts.map Trade.coin) : sheet_exists (loadTrades ts) c = true := by
  rw [List.mem_map] at hc
  obtain ⟨t, ht, rfl⟩ := hc
  obtain ⟨l1, l2, rfl⟩ := List.append_of_mem ht
  rw [loadTrades, List.foldl_append, List.foldl_cons]
  exact sheet_exists_foldl_mono l2 _ _ (recordTrade_creates_coin _ t)

theorem loadTrades_person_exists (ts : List Trade) (p : String)
    (hp : p ∈ ts.map Trade.person) : sheet_exists (loadTrades ts) p = true := by
  rw [List.mem_map] at hp
  obtain ⟨t, ht, rfl⟩ := hp
  obtain ⟨l1, l2, rfl⟩ := List.append_of_mem ht
  rw [loadTrades, List.foldl_append, List.foldl_cons]
  exact sheet_exists_foldl_mono l2 _ _ (recordTrade_creates_person _ t)

/-! Fiberwise decomposition of the signed sum by person. -/

theorem sum_map_zero (P : List String) : (P.map (fun _ => (0 : ℚ))).sum = 0 := by
  induction P with
  | nil => rfl
  | cons q P ih => simp [ih]

theorem sum_indicator_not_mem (P : List String) (x : String) (a : ℚ)
    (hx : x ∉ P) : (P.map (fun p => if x = p then a else 0)).sum = 0 := by
  induction P with
  | nil => rfl
  | cons q P ih =>
    have hq : x ≠ q := fun h => hx (h ▸ List.mem_cons_self q P)
    simp [hq, ih (fun h => hx (List.mem_cons_of_mem _ h))]

theorem sum_indicator_mem (P : List String) (hP : P.Nodup) (x : String) (a : ℚ)
    (hx : x ∈ P) : (P.map (fun p => if x = p then a else 0)).sum = a := by
  induction P with
  | nil => cases hx
  | cons q P ih =>
    rcases List.mem_cons.mp hx with rfl | hx2
    · have hnot : x ∉ P := (List.nodup_cons.mp hP).1
      simp [sum_indicator_not_mem P x a hnot]
    · have hq : x ≠ q := fun h => (List.nodup_cons.mp hP).1 (h ▸ hx2)
      simp [hq, ih (List.nodup_cons.mp hP).2 hx2]

theorem sum_map_add (P : List String) (f g : String → ℚ) :
    (P.map (fun p => f p + g p)).sum = (P.map f).sum + (P.map g).sum := by
  induction P with
  | nil => simp
  | cons q P ih =>
    simp only [List.map_cons, List.sum_cons, ih]
    ring

theorem signedSum_fiber (l : List Trade) (P : List String) (hP : P.Nodup)
    (hcov : ∀ t ∈ l, t.person ∈ P) :
    (P.map (fun p => signedSum (l.filter (fun t => t.person == p)))).sum =
      signedSum l := by
  induction l with
  | nil =>
    have hz : (fun p : String =>
        signedSum (([] : List Trade).filter (fun t => t.person == p))) =
        fun _ => (0 : ℚ) := by
      funext p; rfl
    rw [hz, sum_map_zero, signedSum]
    rfl
  | cons t l ih =>
    have hstep : (fun p : String =>
        signedSum ((t :: l).filter (fun u => u.person == p))) =
        fun p => (if t.person = p then t.signed else 0) +
          signedSum (l.filter (fun u => u.person == p)) := by
      funext p
      rw [List.filter_cons]
      by_cases h : t.person = p <;> simp [h, signedSum]
    rw [hstep, sum_map_add,
      sum_indicator_mem P hP t.person t.signed (hcov t (List.mem_cons_self t l)),
      ih (fun u hu => hcov u (List.mem_cons_of_mem _ hu))]
    simp [signedSum]

/-! Scope values of the holdings operations on a loaded store. -/

theorem coin_scope_value (ts : List Trade) (c : String)
    (hup : ∀ t ∈ ts, t.coin.pyUpper = t.coin)
    (hdisj : ∀ t ∈ ts, ∀ u ∈ ts, t.person ≠ u.coin)
    (hc : c ∈ ts.map Trade.coin) :
    (calculate_total_holdings_for_coin (loadTrades ts) c).qty? =
      some (signedSum (ts.filter (fun t => t.coin == c))) := by
  obtain ⟨u, hu, huc⟩ := List.mem_map.mp hc
  have hMc : c ≠ "Master" := by
    intro h
    have h2 := hup u hu
    rw [huc] at h2
    rw [h] at h2
    exact absurd h2 (by decide)
  have hnp : ∀ t ∈ ts, t.person ≠ c := fun t ht => huc ▸ hdisj t ht u hu
  have hex := loadTrades_coin_exists ts c hc
  have hrows : tableRows (loadTrades ts) c =
      (ts.filter (fun t => t.coin == c)).map tradeRow := by
    rw [tableRows_loadTrades ts c hMc, contrib_coin_key ts c hnp]
  simp [calculate_total_holdings_for_coin, hex, hrows,
    holdingsScan_none_tradeRows, HoldingsResult.qty?]

theorem person_scope_value (ts : List Trade) (c p : String)
    (hup : ∀ t ∈ ts, t.coin.pyUpper = t.coin)
    (hlow : ∀ t ∈ ts, t.person.pyLower = t.person)
    (hdisj : ∀ t ∈ ts, ∀ u ∈ ts, t.person ≠ u.coin)
    (hp : p ∈ ts.map Trade.person) :
    (calculate_total_holdings_for_person_and_coin (loadTrades ts) p c).qty? =
      some (signedSum ((ts.filter (fun t => t.coin == c)).filter
        (fun t => t.person == p))) := by
  obtain ⟨u, hu, hup2⟩ := List.mem_map.mp hp
  have hMp : p ≠ "Master" := by
    intro h
    have h2 := hlow u hu
    rw [hup2] at h2
    rw [h] at h2
    exact absurd h2 (by decide)
  have hnc : ∀ t ∈ ts, t.coin ≠ p := fun t ht => (hup2 ▸ hdisj u hu t ht).symm
  have hex := loadTrades_person_exists ts p hp
  have hrows : tableRows (loadTrades ts) p =
      (ts.filter (fun t => t.person == p)).map tradeRow := by
    rw [tableRows_loadTrades ts p hMp, contrib_person_key ts p hnc]
  have hfc : (ts.filter (fun t => t.person == p)).filter
      (fun t => t.coin.pyUpper == c) =
      (ts.filter (fun t => t.coin == c)).filter (fun t => t.person == p) := by
    rw [List.filter_filter, List.filter_filter]
    apply List.filter_congr
    intro t ht
    rw [hup t ht, Bool.and_comm]
  simp only [calculate_total_holdings_for_person_and_coin, hex, if_true,
    hrows, holdingsScan_some_tradeRows, zero_add, hfc, HoldingsResult.qty?]

/-- C1 amended: over the recorder-normalized states where no person key
collides with a coin key (and keys are normalized as the recorder produces
them, coins uppercase and persons lowercase), the signed quantity from the
coin ledger equals the sum, over all persons who appear in the trade
sequence, of the signed quantities from each person ledger filtered to that
coin. -/
theorem C1_cross_ledger_consistency (ts : List Trade) (c : String)
    (hup : ∀ t ∈ ts, t.coin.pyUpper = t.coin)
    (hlow : ∀ t ∈ ts, t.person.pyLower = t.person)
    (hdisj : ∀ t ∈ ts, ∀ u ∈ ts, t.person ≠ u.coin)
    (hc : c ∈ ts.map Trade.coin) :
    (∀ p ∈ (ts.map Trade.person).dedup,
      ((calculate_total_holdings_for_person_and_coin (loadTrades ts) p c).qty?).isSome) ∧
    (calculate_total_holdings_for_coin (loadTrades ts) c).qty? =
      some (((ts.map Trade.person).dedup.map (fun p =>
        ((calculate_total_holdings_for_person_and_coin (loadTrades ts) p c).qty?).getD
          0)).sum) := by
  have hpv : ∀ p ∈ (ts.map Trade.person).dedup,
      (calculate_total_holdings_for_person_and_coin (loadTrades ts) p c).qty? =
        some (signedSum ((ts.filter (fun t => t.coin == c)).filter
          (fun t => t.person == p))) := by
    intro p hpd
    exact person_scope_value ts c p hup hlow hdisj (List.mem_dedup.mp hpd)
  constructor
  · intro p hpd
    rw [hpv p hpd]
    rfl
  · rw [coin_scope_value ts c hup hdisj hc]
    congr 1
    rw [List.map_congr_left (fun p hpd => by rw [hpv p hpd]; rfl :
      ∀ p ∈ (ts.map Trade.person).dedup, _ = signedSum
        ((ts.filter (fun t => t.coin == c)).filter (fun t => t.person == p)))]
    rw [signedSum_fiber (ts.filter (fun t => t.coin == c))
      ((ts.map Trade.person).dedup) (List.nodup_dedup _)
      (fun t ht => List.mem_dedup.mpr
        (List.mem_map_of_mem Trade.person (List.mem_of_mem_filter ht)))]

/-- First trade of the C1 counterexample: a person whose normalized name is
the digit string 9. -/
def c1t1 : Trade := ⟨"t1", "9", "ETH", 10, 1, "binance", .buy⟩

/-- Second trade of the C1 counterexample: alice buys a coin whose normalized
symbol is the same digit string 9. -/
def c1t2 : Trade := ⟨"t2", "alice", "9", 10, 2, "binance", .buy⟩

/-- C1 counterexample: person 9 and coin 9 resolve to the same sheet, so the
coin-ledger signed quantity for coin 9 is 3 while alice, the only person who
traded coin 9, accounts for a filtered signed quantity of 2: the claimed
equality fails on this recorded sequence. -/
theorem C1_cross_ledger_counterexample :
    (calculate_total_holdings_for_coin (loadTrades [c1t1, c1t2]) "9").qty? =
      some 3 ∧
    (calculate_total_holdings_for_person_and_coin (loadTrades [c1t1, c1t2])
      "alice" "9").qty? = some 2 ∧
    (calculate_total_holdings_for_coin (loadTrades [c1t1, c1t2]) "9").qty? ≠
      (calculate_total_holdings_for_person_and_coin (loadTrades [c1t1, c1t2])
        "alice" "9").qty? := by
  have hex9 : sheet_exists (loadTrades [c1t1, c1t2]) "9" = true := by decide
  have hexA : sheet_exists (loadTrades [c1t1, c1t2]) "alice" = true := by decide
  have hrows9 : tableRows (loadTrades [c1t1, c1t2]) "9" =
      [c1t1, c1t2].map tradeRow := rfl
  have hrowsA : tableRows (loadTrades [c1t1, c1t2]) "alice" =
      [c1t2].map tradeRow := rfl
  have hup9 : ("9" : String).pyUpper = "9" := rfl
  have h1 : (calculate_total_holdings_for_coin (loadTrades [c1t1, c1t2]) "9").qty? =
      some 3 := by
    simp only [calculate_total_holdings_for_coin, hex9, if_true, hrows9,
      holdingsScan_none_tradeRows, HoldingsResult.qty?]
    norm_num [signedSum, Trade.signed, c1t1, c1t2]
  have h2 : (calculate_total_holdings_for_person_and_coin (loadTrades [c1t1, c1t2])
      "alice" "9").qty? = some 2 := by
    simp only [calculate_total_holdings_for_person_and_coin, hexA, if_true, hrowsA,
      holdingsScan_some_tradeRows, HoldingsResult.qty?]
    norm_num [signedSum, Trade.signed, c1t1, c1t2, hup9]
  refine ⟨h1, h2, ?_⟩
  rw [h1, h2]
  simp

theorem C1_cross_ledger_consistency_witness :
    (∀ p ∈ ([c2buy].map Trade.person).dedup,
      ((calculate_total_holdings_for_person_and_coin (loadTrades [c2buy]) p
        "BTC").qty?).isSome) ∧
    (calculate_total_holdings_for_coin (loadTrades [c2buy]) "BTC").qty? =
      some ((([c2buy].map Trade.person).dedup.map (fun p =>
        ((calculate_total_holdings_for_person_and_coin (loadTrades [c2buy]) p
          "BTC").qty?).getD 0)).sum) :=
  C1_cross_ledger_consistency [c2buy] "BTC" (by decide) (by decide) (by decide)
    (by decide)

/-! Behaviour of one price refresh cycle. -/

theorem foldl_append_rows {β : Type} (g : β → List PriceRow) (bs : List β) :
    ∀ lg : List PriceRow,
      bs.foldl (fun a b => if (g b).isEmpty then a else a ++ g b) lg =
        lg ++ bs.flatMap g := by
  induction bs with
  | nil => intro lg; simp
  | cons b bs ih =>
    intro lg
    rw [List.foldl_cons]
    by_cases hb : (g b).isEmpty = true
    · rw [if_pos hb]
      rw [List.isEmpty_iff] at hb
      rw [ih lg, List.flatMap_cons, hb, List.nil_append]
    · rw [if_neg hb]
      rw [ih (lg ++ g b), List.flatMap_cons, List.append_assoc]

theorem record_prices_eq (m : Mappings) (coins : List String)
    (fetch : List String → Option (String → Option ℚ)) (now : String)
    (log : List PriceRow) :
    record_prices m coins fetch now log = log ++ cycle_rows m coins fetch now := by
  rw [record_prices, cycle_rows]
  by_cases hv : (valid_coins m coins).isEmpty
  · rw [List.isEmpty_iff] at hv
    simp [hv, chunks250, chunksAux]
  · simp only [hv, Bool.false_eq_true, if_false]
    exact foldl_append_rows (batch_rows fetch now) (chunks250 (valid_coins m coins)) log

theorem batch_rows_symbols_sublist (fetch : List String → Option (String → Option ℚ))
    (now : String) (b : List (String × String)) :
    List.Sublist ((batch_rows fetch now b).map PriceRow.symbol) (b.map Prod.fst) := by
  rw [batch_rows]
  cases fetch (b.map Prod.snd) with
  | none => exact List.nil_sublist _
  | some prices =>
    dsimp only
    induction b with
    | nil => exact List.nil_sublist _
    | cons p b ih =>
      rw [List.filterMap_cons, List.map_cons]
      cases hp : prices p.2 with
      | none => exact ih.cons p.1
      | some usd =>
        by_cases h0 : usd = 0
        · simp only [h0, if_true, reduceIte]
          exact ih.cons p.1
        · simp only [h0, if_false, reduceIte, List.map_cons]
          exact ih.cons₂ p.1

theorem flatMap_sublist {α β : Type} (f g : α → List β) (l : List α)
    (h : ∀ b ∈ l, List.Sublist (f b) (g b)) : List.Sublist (l.flatMap f) (l.flatMap g) := by
  induction l with
  | nil => exact List.nil_sublist _
  | cons b l ih =>
    rw [List.flatMap_cons, List.flatMap_cons]
    exact (h b (List.mem_cons_self b l)).append
      (ih (fun x hx => h x (List.mem_cons_of_mem _ hx)))

theorem chunksAux_flatten {α : Type} :
    ∀ (fuel : Nat) (l : List α), l.length ≤ fuel → (chunksAux fuel l).flatten = l := by
  intro fuel
  induction fuel with
  | zero =>
    intro l hl
    have : l = [] := List.length_eq_zero.mp (Nat.le_zero.mp hl)
    rw [this]
    rfl
  | succ f ih =>
    intro l hl
    cases l with
    | nil => rfl
    | cons a as =>
      rw [show chunksAux (f + 1) (a :: as) =
          (a :: as).take 250 :: chunksAux f ((a :: as).drop 250) from rfl,
        List.flatten_cons, ih ((a :: as).drop 250) (by
          rw [List.length_drop]
          simp only [List.length_cons] at hl ⊢
          omega)]
      exact List.take_append_drop 250 (a :: as)

theorem valid_coins_fst_sublist (m : Mappings) (coins : List String) :
    List.Sublist ((valid_coins m coins).map Prod.fst) coins := by
  rw [valid_coins]
  induction coins with
  | nil => exact List.nil_sublist _
  | cons c coins ih =>
    rw [List.filterMap_cons]
    cases m c with
    | none => exact ih.cons c
    | some cgid =>
      by_cases h0 : cgid = ""
      · simp only [h0, if_true, reduceIte]
        exact ih.cons c
      · simp only [h0, if_false, reduceIte, List.map_cons]
        exact ih.cons₂ c

theorem cycle_rows_symbols_nodup (m : Mappings) (coins : List String)
    (fetch : List String → Option (String → Option ℚ)) (now : String)
    (hnd : coins.Nodup) :
    ((cycle_rows m coins fetch now).map PriceRow.symbol).Nodup := by
  rw [cycle_rows, List.map_flatMap]
  have h1 : List.Sublist ((chunks250 (valid_coins m coins)).flatMap
      (fun b => (batch_rows fetch now b).map PriceRow.symbol))
      ((chunks250 (valid_coins m coins)).flatMap (fun b => b.map Prod.fst)) := by
    exact flatMap_sublist _ _ _
      (fun b _ => batch_rows_symbols_sublist fetch now b)
  have h2 : (chunks250 (valid_coins m coins)).flatMap (fun b => b.map Prod.fst) =
      (valid_coins m coins).map Prod.fst := by
    rw [← List.map_flatMap]
    have h3 : (chunks250 (valid_coins m coins)).flatMap id = valid_coins m coins := by
      rw [← List.flatten_eq_flatMap]
      exact chunksAux_flatten _ _ (Nat.le_refl _)
    rw [show (chunks250 (valid_coins m coins)).flatMap (fun b => b) =
      (chunks250 (valid_coins m coins)).flatMap id from rfl, h3]
  rw [h2] at h1
  exact (h1.trans (valid_coins_fst_sublist m coins)).nodup hnd

/-- C6 amended: a refresh cycle never overwrites an existing price row: the
table after a cycle is the old table with the rows of the cycle appended, and
a cycle appends at most one row per tracked coin (exactly the coins whose
mapping and price succeeded), so the table accumulates one row per coin per
successful cycle rather than keeping a single row per coin. -/
theorem C6_cycle_appends_rows :
    (∀ (m : Mappings) (coins : List String)
      (fetch : List String → Option (String → Option ℚ)) (now : String)
      (log : List PriceRow),
      record_prices m coins fetch now log = log ++ cycle_rows m coins fetch now) ∧
    (∀ (m : Mappings) (coins : List String)
      (fetch : List String → Option (String → Option ℚ)) (now : String),
      coins.Nodup → ((cycle_rows m coins fetch now).map PriceRow.symbol).Nodup) :=
  ⟨record_prices_eq, fun m coins fetch now hnd =>
    cycle_rows_symbols_nodup m coins fetch now hnd⟩

/-- Mapping table of the price-cycle examples. -/
def c6mappings : Mappings :=
  fun s => if s = "BTC" then some "bitcoin" else
    if s = "DOGE" then some "dogecoin" else none

/-- Price map of the price-cycle examples: bitcoin is priced, dogecoin is
missing from the response (its fetch failed). -/
def c6prices : String → Option ℚ :=
  fun i => if i = "bitcoin" then some 50000 else none

/-- Batched fetch of the price-cycle examples. -/
def c6fetch : List String → Option (String → Option ℚ) :=
  fun _ => some c6prices

/-- C6 counterexample: after two refresh cycles over the single tracked coin
BTC, the DailyPrices table holds two rows for BTC, one per cycle, so the
claimed one-row-per-coin invariant is not preserved and nothing is
overwritten in place. -/
theorem C6_one_row_per_coin_counterexample :
    record_prices c6mappings ["BTC"] c6fetch "t2"
        (record_prices c6mappings ["BTC"] c6fetch "t1" []) =
      [PriceRow.mk "t1" "BTC" "bitcoin" 50000,
       PriceRow.mk "t2" "BTC" "bitcoin" 50000] := by
  decide

theorem C6_cycle_appends_rows_witness :
    (record_prices c6mappings ["BTC", "DOGE"] c6fetch "t1" [] =
      [] ++ cycle_rows c6mappings ["BTC", "DOGE"] c6fetch "t1") ∧
    ((cycle_rows c6mappings ["BTC", "DOGE"] c6fetch "t1").map
      PriceRow.symbol).Nodup :=
  ⟨C6_cycle_appends_rows.1 c6mappings ["BTC", "DOGE"] c6fetch "t1" [],
   C6_cycle_appends_rows.2 c6mappings ["BTC", "DOGE"] c6fetch "t1" (by decide)⟩

/-- C8: within one refresh cycle, a coin whose batch was fetched and whose
price is present and truthy gets its row written, regardless of any other
coin of the same batch whose price is missing from the response: the failure
of one coin does not abort the cycle. -/
theorem C8_per_coin_failure_isolated (m : Mappings) (coins : List String)
    (fetch : List String → Option (String → Option ℚ)) (now : String)
    (log : List PriceRow) (c cgid d did : String) (p : ℚ)
    (batch : List (String × String)) (prices : String → Option ℚ)
    (hbatch : batch ∈ chunks250 (valid_coins m coins))
    (hcb : (c, cgid) ∈ batch)
    (hfetch : fetch (batch.map Prod.snd) = some prices)
    (hcp : prices cgid = some p) (hp0 : p ≠ 0)
    (_hdb : (d, did) ∈ batch) (_hdp : prices did = none) :
    PriceRow.mk now c cgid p ∈ record_prices m coins fetch now log := by
  rw [record_prices_eq]
  apply List.mem_append_right
  rw [cycle_rows]
  refine List.mem_flatMap.mpr ⟨batch, hbatch, ?_⟩
  rw [batch_rows, hfetch]
  refine List.mem_filterMap.mpr ⟨(c, cgid), hcb, ?_⟩
  simp [hcp, hp0]

theorem C8_per_coin_failure_isolated_witness :
    PriceRow.mk "t1" "BTC" "bitcoin" 50000 ∈
      record_prices c6mappings ["BTC", "DOGE"] c6fetch "t1" [] :=
  C8_per_coin_failure_isolated c6mappings ["BTC", "DOGE"] c6fetch "t1" []
    "BTC" "bitcoin" "DOGE" "dogecoin" 50000
    [("BTC", "bitcoin"), ("DOGE", "dogecoin")] c6prices
    (by decide) (by decide) rfl (by decide) (by decide) (by decide) (by decide)

end MksTrades
